import Mathlib

/-!
Shallow embedding of the GPMF telemetry parser (`parser.py`) and the
stream exporter's scaling step (`stream_exporter.py`), together with
theorems settling the specification's claims about them.

Conventions of the embedding:
* bytes are `Nat` in `[0,256)`; the byte source (`file`) is a `List Nat`
  together with a cursor position, and `file.read(n)` is modelled as
  Python does it: it returns up to `n` bytes and never fails;
* Python's global mutable state (`hierarchy`, `python_json`, the file
  handle) is gathered into an explicit `PState` record threaded through
  every operation;
* the recursion of `read_bytes` and of the `while True` driver loop is
  made total with an explicit fuel argument; running out of fuel yields
  the distinguished error `PErr.fuelOut`, which no theorem ever treats
  as a behaviour of the source program;
* IEEE-754 payloads (type tags `f`/`d`) are carried as their raw
  big-endian byte chunks (`PyVal.f32`/`PyVal.f64`), uninterpreted: no
  claim depends on the numeric value of a float leaf;
* Python exceptions are an `Except PErr` result: `ValueError` from
  `bytes_to_number`'s divisibility check, `ValueError` from the unknown
  type-tag branch, `IndexError` from `value[0]` on an empty sequence,
  `UnicodeDecodeError` from `.decode('ascii')` on a byte ≥ 128.
-/

/-- One entry of the global `hierarchy` list (`parser.py` line 49):
`[key_name, key_type, key_size, key_repeat, key_size*key_repeat,
ceil(key_size*key_repeat/4)*4]`.  `total` is the immutable index-4 field,
`remaining` the mutable index-5 field (it can go negative, hence `Int`). -/
structure Frame where
  key : String
  ty : String
  size : Nat
  rpt : Nat
  total : Nat
  remaining : Int
deriving DecidableEq, Repr

/-- Padding debt of a frame (`parser.py` line 66):
`math.ceil(h[4] / 4) * 4 - h[4]`, always in `[0,4)`. -/
def framePadding (f : Frame) : Nat := (f.total + 3) / 4 * 4 - f.total

/-- Decoded scalar values as Python produces them.  `f32`/`f64` carry the
raw big-endian bytes of an IEEE float, uninterpreted. -/
inductive PyVal where
  | int : Int → PyVal
  | str : String → PyVal
  | f32 : List Nat → PyVal
  | f64 : List Nat → PyVal
  | list : List PyVal → PyVal

/-- One node of the `python_json` output tree: either a key entry
`{name: {"Type": ty, "Size": size, "Repeat": rpt, "Values": values}}`
(`parser.py` lines 35-42) or a plain appended value. -/
inductive JNode where
  | entry (name ty : String) (size rpt : Nat) (values : List JNode)
  | val (v : PyVal)

/-- Python exceptions and the fuel sentinel of the embedding. -/
inductive PErr where
  | fuelOut
  | valueError
  | unsupportedType (t : String)
  | indexError
  | unicodeDecodeError
deriving DecidableEq, Repr

/-- Whole parser state: the byte source with its cursor, the global
`hierarchy` stack (index 0 = outermost, last = `hierarchy[-1]`), and the
global `python_json` tree. -/
structure PState where
  stream : List Nat
  pos : Nat
  hier : List Frame
  tree : List JNode

/-- Python `file.read(amount)`: advance the cursor by however many bytes
are actually available, never more than `amount`. -/
def advancePos (st : PState) (amount : Nat) : PState :=
  { st with pos := st.pos + min amount (st.stream.length - st.pos) }

/-- Subtract `n` from a frame's remaining-byte counter (`h[5] -= amount`). -/
def decFrame (f : Frame) (n : Nat) : Frame :=
  { f with remaining := f.remaining - n }

/-- The hierarchy-updating loop of `read_bytes` (`parser.py` lines 64-68),
processing frames from index `i` on: decrement `h[5]` by `amount`; if it
now equals the frame's non-zero padding debt, recursively perform a full
`read_bytes(file, padding_bytes)` (consume the bytes, then run this loop
over the whole stack from index 0) before moving to the next frame. -/
def readCore : Nat → PState → Nat → Nat → Except PErr PState
  | 0, _, _, _ => .error .fuelOut
  | fuel + 1, st, amount, i =>
    if h : i < st.hier.length then
      let f := st.hier.get ⟨i, h⟩
      let f' := decFrame f amount
      let st' := { st with hier := st.hier.set i f' }
      let pb := framePadding f
      if f'.remaining = (pb : Int) ∧ pb ≠ 0 then
        match readCore fuel (advancePos st' pb) pb 0 with
        | .error e => .error e
        | .ok st3 => readCore fuel st3 amount (i + 1)
      else
        readCore fuel st' amount (i + 1)
    else
      .ok st

/-- Model of `read_bytes(file, amount)` (`parser.py` lines 61-69): read up to
`amount` bytes from the source, then decrement every open frame and drain
padding via `readCore`.  The returned data is whatever the source yielded
(possibly short — no length check is made anywhere). -/
def readBytesF (fuel : Nat) (st : PState) (amount : Nat) :
    Except PErr (List Nat × PState) :=
  let data := (st.stream.drop st.pos).take amount
  match readCore fuel (advancePos st amount) amount 0 with
  | .error e => .error e
  | .ok st' => .ok (data, st')

/-- Big-endian unsigned integer of a byte run (`int.from_bytes(b, "big")`). -/
def bytesToNat (bs : List Nat) : Nat := bs.foldl (fun a b => a * 256 + b) 0

/-- Two's-complement reinterpretation for `signed=True` over `k` bytes. -/
def toSigned (k : Nat) (v : Nat) : Int :=
  if v < 2 ^ (8 * k - 1) then (v : Int) else (v : Int) - 2 ^ (8 * k)

/-- Slices `data[i:i+k]` for `i in range(0, len(data), k)`; the fuel is the
list length, enough since `k ≥ 1` at every call site. -/
def chunksAux (k : Nat) : Nat → List Nat → List (List Nat)
  | 0, _ => []
  | _, [] => []
  | n + 1, l => l.take k :: chunksAux k n (l.drop k)

/-- Non-empty slices of width `k` (call sites always have `k ≥ 1`). -/
def chunks (k : Nat) (l : List Nat) : List (List Nat) :=
  if k = 0 then [] else chunksAux k l.length l

/-- Dtype selector of `bytes_to_number` (`parser.py` lines 87-91). -/
inductive DType where
  | int
  | float
  | double
deriving DecidableEq

/-- Model of `bytes_to_number(data, bytes_per_number, signed, dtype)`
(`parser.py` lines 83-92): `ValueError` when the data length is not a
multiple of the element width, otherwise one value per `k`-byte chunk. -/
def bytes_to_number (data : List Nat) (k : Nat) (signed : Bool)
    (dtype : DType) : Except PErr (List PyVal) :=
  if data.length % k ≠ 0 then .error .valueError
  else .ok ((chunks k data).map fun c =>
    match dtype with
    | .int => .int (if signed then toSigned k (bytesToNat c) else (bytesToNat c : Int))
    | .float => .f32 c
    | .double => .f64 c)

/-- Model of `bytes_to_string(data)` (`parser.py` lines 77-80) at its only used
`bytes_per_char=1`: `chr` of each byte, joined. -/
def bytesToString (data : List Nat) : String :=
  String.mk (data.map Char.ofNat)

/-- Python `bytes.decode('ascii')`: fails on any byte ≥ 128. -/
def decodeAscii (data : List Nat) : Except PErr String :=
  if data.all (fun b => b < 128) then .ok (String.mk (data.map Char.ofNat))
  else .error .unicodeDecodeError

/-- Python `str.rstrip('\0')`: drop trailing NUL characters. -/
def rstripNul (s : String) : String :=
  String.mk ((s.data.reverse.dropWhile (fun c => c == Char.ofNat 0)).reverse)

/-- The type byte (`parser.py` line 143): `'0' if type_code == b'\x00'
else type_code.decode('ascii')`. -/
def parseTypeCode (tb : List Nat) : Except PErr String :=
  if tb = [0] then .ok "0" else decodeAscii tb

/-- Python slice `s[a:b]` on a string with non-negative bounds. -/
def pySliceStr (s : String) (a b : Nat) : List Char :=
  (s.data.take b).drop a

/-- The type-`U` datetime reformat (`parser.py` line 126):
`f'{t[4:6]}.{t[2:4]}.20{t[0:2]} {t[6:8]}:{t[8:10]}:{t[10:12]}.{t[13:16]}'`. -/
def uFormat (t : String) : String :=
  String.mk (pySliceStr t 4 6 ++ ('.' :: pySliceStr t 2 4)
    ++ ('.' :: '2' :: '0' :: pySliceStr t 0 2) ++ (' ' :: pySliceStr t 6 8)
    ++ (':' :: pySliceStr t 8 10) ++ (':' :: pySliceStr t 10 12)
    ++ ('.' :: pySliceStr t 13 16))

/-- The append rule `value if len(value) > 1 else value[0]`
(`parser.py` line 129) for a list-valued decode: `IndexError` on an empty
list, the bare element for a singleton, the list otherwise. -/
def pyFlatten (vs : List PyVal) : Except PErr PyVal :=
  match vs with
  | [] => .error .indexError
  | [v] => .ok v
  | v₀ :: v₁ :: rest => .ok (.list (v₀ :: v₁ :: rest))

/-- The same append rule for a string-valued decode: `s[0]` of a length-1
string is that string again, so only the empty string raises. -/
def pyFlattenStr (s : String) : Except PErr PyVal :=
  if s.length = 0 then .error .indexError else .ok (.str s)

/-- Dispatch of `handle_types` (`parser.py` lines 102-128) from the type
tag and the freshly read data to the value that will be appended. -/
def typeDecode (tc : String) (data : List Nat) : Except PErr PyVal :=
  if tc = "b" then (bytes_to_number data 1 true .int).bind pyFlatten
  else if tc = "B" then (bytes_to_number data 1 false .int).bind pyFlatten
  else if tc = "c" then pyFlattenStr (bytesToString data)
  else if tc = "d" then (bytes_to_number data 8 false .double).bind pyFlatten
  else if tc = "f" then (bytes_to_number data 4 false .float).bind pyFlatten
  else if tc = "j" then (bytes_to_number data 8 true .int).bind pyFlatten
  else if tc = "J" then (bytes_to_number data 8 false .int).bind pyFlatten
  else if tc = "l" then (bytes_to_number data 4 true .int).bind pyFlatten
  else if tc = "L" then (bytes_to_number data 4 false .int).bind pyFlatten
  else if tc = "s" then (bytes_to_number data 2 true .int).bind pyFlatten
  else if tc = "S" then (bytes_to_number data 2 false .int).bind pyFlatten
  else if tc = "U" then pyFlattenStr (uFormat (bytesToString data))
  else .error (.unsupportedType tc)

/-- Name test used by the tree traversal: `key[0] in item` where `item`
is a single-key dict; a bare appended value never matches. -/
def nodeHasName (n : JNode) (s : String) : Bool :=
  match n with
  | .entry nm _ _ _ _ => nm = s
  | .val _ => false

/-- Index of the last entry named `s`, as selected by
`[item for item in last_key if key[0] in item][-1]` (`parser.py` line 47). -/
def lastMatchIdx : List JNode → String → Option Nat
  | [], _ => none
  | n :: rest, s =>
    match lastMatchIdx rest s with
    | some k => some (k + 1)
    | none => if nodeHasName n s then some 0 else none

/-- Walk the tree along the hierarchy's key names, descending into the
`"Values"` list of the last matching entry at each level, and apply `f`
to the final list.  An unmatched name (Python would raise `IndexError`,
unreachable for trees the driver itself built) leaves the tree unchanged. -/
def updateTreePath : List JNode → List String → (List JNode → List JNode) → List JNode
  | items, [], f => f items
  | items, name :: rest, f =>
    match lastMatchIdx items name with
    | none => items
    | some j =>
      match items[j]? with
      | some (.entry nm ty sz rp vs) =>
        items.set j (.entry nm ty sz rp (updateTreePath vs rest f))
      | _ => items

/-- Model of `json_add_key` (`parser.py` lines 32-49): insert a fresh entry at the
position addressed by the current hierarchy, then push the new frame with
`total = size*repeat` and `remaining = ceil(size*repeat/4)*4`. -/
def jsonAddKey (st : PState) (key ty : String) (size rpt : Nat) : PState :=
  let total := size * rpt
  let fr : Frame :=
    { key := key, ty := ty, size := size, rpt := rpt, total := total,
      remaining := ((total + 3) / 4 * 4 : Nat) }
  { st with
    tree := updateTreePath st.tree (st.hier.map (fun f => f.key))
      (fun vs => vs ++ [JNode.entry key ty size rpt []]),
    hier := st.hier ++ [fr] }

/-- Model of `json_add_value` (`parser.py` lines 52-58): append a decoded value to
the `"Values"` list addressed by the full current hierarchy. -/
def jsonAddValue (st : PState) (v : PyVal) : PState :=
  { st with
    tree := updateTreePath st.tree (st.hier.map (fun f => f.key))
      (fun vs => vs ++ [JNode.val v]) }

/-- Model of `handle_types` up to and including `json_add_value`
(`parser.py` lines 95-129): read `hierarchy[-1][2]` bytes, decode them by
the top frame's type tag, append the (possibly flattened) value. -/
def handleTypesPre (fuel : Nat) (st : PState) : Except PErr PState :=
  match st.hier.getLast? with
  | none => .error .indexError
  | some top =>
    match readBytesF fuel st top.size with
    | .error e => .error e
    | .ok (data, st1) =>
      match typeDecode top.ty data with
      | .error e => .error e
      | .ok v => .ok (jsonAddValue st1 v)

/-- Full `handle_types` (`parser.py` lines 95-132): after recording the
value, drop every frame whose remaining count is now zero
(`hierarchy[:] = [h for h in hierarchy if h[5] != 0]`). -/
def handleTypesF (fuel : Nat) (st : PState) : Except PErr PState :=
  match handleTypesPre fuel st with
  | .error e => .error e
  | .ok s => .ok { s with hier := s.hier.filter (fun h => h.remaining ≠ 0) }

/-- Result of one iteration of the `while True` driver loop: `brk`
corresponds to the `break` on the all-zero sentinel. -/
inductive StepOut where
  | brk (st : PState)
  | cont (st : PState)

/-- One iteration of `main`'s loop (`parser.py` lines 139-152): read and
register a header when the stack is empty or its top is a container,
otherwise decode one element of the current leaf. -/
def stepF (fuel : Nat) (st : PState) : Except PErr StepOut :=
  if (match st.hier.getLast? with
      | none => true
      | some f => f.ty == "0") then
    match readBytesF fuel st 4 with
    | .error e => .error e
    | .ok (kb, st1) =>
      match decodeAscii kb with
      | .error e => .error e
      | .ok key0 =>
        let key := rstripNul key0
        match readBytesF fuel st1 1 with
        | .error e => .error e
        | .ok (tb, st2) =>
          match parseTypeCode tb with
          | .error e => .error e
          | .ok tc =>
            match readBytesF fuel st2 1 with
            | .error e => .error e
            | .ok (sb, st3) =>
              let size := bytesToNat sb
              match readBytesF fuel st3 2 with
              | .error e => .error e
              | .ok (rb, st4) =>
                let rpt := bytesToNat rb
                if size = 0 ∧ rpt = 0 then .ok (.brk st4)
                else .ok (.cont (jsonAddKey st4 key tc size rpt))
  else
    match handleTypesF fuel st with
    | .error e => .error e
    | .ok st' => .ok (.cont st')

/-- The driver loop itself: iterate `stepF` until the sentinel `break`
or an exception. -/
def mainLoopF : Nat → PState → Except PErr PState
  | 0, _ => .error .fuelOut
  | fuel + 1, st =>
    match stepF fuel st with
    | .error e => .error e
    | .ok (.brk st') => .ok st'
    | .ok (.cont st') => mainLoopF fuel st'

/-- Initial state of `main`: cursor at 0, empty `hierarchy`, empty
`python_json`. -/
def initState (stream : List Nat) : PState :=
  { stream := stream, pos := 0, hier := [], tree := [] }

/-! ## Stream exporter: the scaling step -/

/-- Round half to even, the behaviour of Python's `round` on an exact
tie, over exact rationals. -/
def roundHalfEven (x : ℚ) : Int :=
  let f := ⌊x⌋
  if x - f < 1 / 2 then f
  else if (1 : ℚ) / 2 < x - f then f + 1
  else if f % 2 = 0 then f else f + 1

/-- Python `round(x, 6)` idealised over exact rationals. -/
def pyRound6 (x : ℚ) : ℚ := (roundHalfEven (x * 1000000) : ℚ) / 1000000

/-- Python `enumerate`. -/
def pyEnumerate (l : List α) : List (Nat × α) :=
  (List.range l.length).zip l

/-- Model of `scale_values(values, scales)` (`stream_exporter.py` lines 132-138):
for every sample group `entry` and every position `i` in it, emit
`round(value / scales[i % len(scales)], 6)`.  The call site guarantees a
non-empty `scales`; the out-of-range default 0 of `getD` is never used
there. -/
def scale_values (values : List (List ℚ)) (scales : List ℚ) : List (List ℚ) :=
  values.map (fun entry =>
    (pyEnumerate entry).map (fun p =>
      pyRound6 (p.2 / scales.getD (p.1 % scales.length) 0)))

/-! ## Helper lemmas about the byte cursor -/

/-- Unfolding equation of `readCore` at positive fuel, with the local
definitions inlined. -/
theorem readCore_succ (fuel : Nat) (st : PState) (a i : Nat) :
    readCore (fuel + 1) st a i =
      if h : i < st.hier.length then
        if (decFrame (st.hier.get ⟨i, h⟩) a).remaining
            = (framePadding (st.hier.get ⟨i, h⟩) : Int)
            ∧ framePadding (st.hier.get ⟨i, h⟩) ≠ 0 then
          match readCore fuel
              (advancePos { st with hier := st.hier.set i (decFrame (st.hier.get ⟨i, h⟩) a) }
                (framePadding (st.hier.get ⟨i, h⟩)))
              (framePadding (st.hier.get ⟨i, h⟩)) 0 with
          | .error e => .error e
          | .ok st3 => readCore fuel st3 a (i + 1)
        else
          readCore fuel
            { st with hier := st.hier.set i (decFrame (st.hier.get ⟨i, h⟩) a) } a (i + 1)
      else .ok st := rfl

theorem decFrame_zero (f : Frame) : decFrame f 0 = f := by
  cases f; simp [decFrame]

theorem decFrame_add (f : Frame) (m n : Nat) :
    decFrame (decFrame f m) n = decFrame f (m + n) := by
  cases f; simp [decFrame]; ring

theorem decFrame_congr (f : Frame) {m n : Nat} (h : m = n) :
    decFrame f m = decFrame f n := by rw [h]

theorem framePadding_decFrame (f : Frame) (n : Nat) :
    framePadding (decFrame f n) = framePadding f := rfl

/-- Reading a frame list after the loop's in-place update of frame `i`. -/
theorem getElem_set_decFrame (l : List Frame) (i j a : Nat) (hi : i < l.length)
    (hj : j < l.length)
    (hjs : j < (l.set i (decFrame (l.get ⟨i, hi⟩) a)).length) :
    (l.set i (decFrame (l.get ⟨i, hi⟩) a))[j] =
      if i = j then decFrame (l[j]) a else l[j] := by
  rw [List.getElem_set]
  by_cases hij : i = j
  · subst hij
    rw [if_pos rfl, if_pos rfl, List.get_eq_getElem]
  · rw [if_neg hij, if_neg hij]

theorem advancePos_stream (st : PState) (n : Nat) :
    (advancePos st n).stream = st.stream := rfl

theorem advancePos_hier (st : PState) (n : Nat) :
    (advancePos st n).hier = st.hier := rfl

theorem advancePos_tree (st : PState) (n : Nat) :
    (advancePos st n).tree = st.tree := rfl

theorem advancePos_pos (st : PState) (n : Nat) :
    (advancePos st n).pos = st.pos + min n (st.stream.length - st.pos) := rfl

/-- Uniform-decrement invariant of the hierarchy loop: a successful
`readCore` run decrements every frame of the stack by one common total
`D` of nested padding bytes, plus `amount` for the frames at index ≥ `i`,
and advances the cursor by exactly `D` (capped at the end of the source). -/
theorem readCore_ok (fuel : Nat) :
    ∀ (st : PState) (a i : Nat) (st' : PState),
      readCore fuel st a i = .ok st' → st.pos ≤ st.stream.length →
      ∃ D : Nat, st'.stream = st.stream ∧ st'.tree = st.tree ∧
        st'.pos = min (st.pos + D) st.stream.length ∧
        st'.hier.length = st.hier.length ∧
        ∀ (j : Nat) (hj : j < st.hier.length) (hj' : j < st'.hier.length),
          st'.hier[j] = decFrame (st.hier[j]) (D + (if i ≤ j then a else 0)) := by
  induction fuel with
  | zero =>
    intro st a i st' hok
    simp [readCore] at hok
  | succ fuel ih =>
    intro st a i st' hok hpos
    rw [readCore_succ] at hok
    by_cases hi : i < st.hier.length
    · rw [dif_pos hi] at hok
      split at hok
      · -- padding trigger at frame i
        rename_i htrig
        cases hnest : readCore fuel
            (advancePos { st with hier := st.hier.set i (decFrame (st.hier.get ⟨i, hi⟩) a) }
              (framePadding (st.hier.get ⟨i, hi⟩)))
            (framePadding (st.hier.get ⟨i, hi⟩)) 0 with
        | error e => rw [hnest] at hok; simp at hok
        | ok st3 =>
          rw [hnest] at hok
          obtain ⟨D₁, hs₁, ht₁, hp₁, hl₁, hf₁⟩ := ih _ _ _ _ hnest (by
            simp only [advancePos_pos, advancePos_stream]
            omega)
          simp only [advancePos_stream, advancePos_tree, advancePos_pos, advancePos_hier,
            List.length_set] at hs₁ ht₁ hp₁ hl₁ hf₁
          obtain ⟨D₂, hs₂, ht₂, hp₂, hl₂, hf₂⟩ := ih _ _ _ _ hok (by rw [hp₁, hs₁]; omega)
          rw [hs₁] at hs₂ hp₂
          rw [ht₁] at ht₂
          rw [hp₁] at hp₂
          rw [hl₁] at hl₂
          refine ⟨framePadding (st.hier.get ⟨i, hi⟩) + D₁ + D₂, hs₂, ht₂, ?_, hl₂, ?_⟩
          · rw [hp₂]
            simp only [List.get_eq_getElem]
            omega
          · intro j hj hj'
            have hj3 : j < st3.hier.length := by omega
            have h2 := hf₂ j hj3 hj'
            have h1 := hf₁ j (by simpa using hj) hj3
            have hset := getElem_set_decFrame st.hier i j a hi hj (by simpa using hj)
            rw [hset] at h1
            rw [h2, h1]
            have hz : (if 0 ≤ j then framePadding (st.hier.get ⟨i, hi⟩) else 0)
                = framePadding (st.hier.get ⟨i, hi⟩) := if_pos (Nat.zero_le j)
            rw [hz]
            by_cases hij : i = j
            · subst hij
              rw [if_pos rfl, if_pos (le_refl i), if_neg (by omega)]
              rw [decFrame_add, decFrame_add]
              apply decFrame_congr
              simp only [List.get_eq_getElem]
              omega
            · rw [if_neg hij, decFrame_add]
              by_cases hle : i ≤ j
              · rw [if_pos (by omega : i + 1 ≤ j), if_pos hle]
                apply decFrame_congr
                simp only [List.get_eq_getElem]
                omega
              · rw [if_neg (by omega : ¬ i + 1 ≤ j), if_neg hle]
                apply decFrame_congr
                simp only [List.get_eq_getElem]
                omega
      · -- no trigger at frame i
        rename_i htrig
        obtain ⟨D, hs, ht, hp, hl, hf⟩ := ih _ _ _ _ hok (by simpa using hpos)
        simp only [List.length_set] at hl hf
        refine ⟨D, by simpa using hs, by simpa using ht, by simpa using hp, by simpa using hl, ?_⟩
        intro j hj hj'
        have h := hf j hj hj'
        have hset := getElem_set_decFrame st.hier i j a hi hj (by simpa using hj)
        rw [hset] at h
        rw [h]
        by_cases hij : i = j
        · subst hij
          rw [if_pos rfl, if_neg (by omega), if_pos (le_refl i)]
          rw [decFrame_add]
          apply decFrame_congr
          omega
        · rw [if_neg hij]
          by_cases hle : i ≤ j
          · rw [if_pos (by omega : i + 1 ≤ j), if_pos hle]
          · rw [if_neg (by omega : ¬ i + 1 ≤ j), if_neg hle]
    · rw [dif_neg hi] at hok
      injection hok with hok
      subst hok
      refine ⟨0, rfl, rfl, by omega, rfl, ?_⟩
      intro j hj hj'
      rw [if_neg (by omega)]
      simp [decFrame_zero]

/-- A frame that is not sitting exactly on a non-zero padding debt. -/
def goodFrame (f : Frame) : Prop :=
  framePadding f ≠ 0 → f.remaining ≠ (framePadding f : Int)

/-- Padding drain postcondition: when `readCore` returns, no frame of the
stack is left with its remaining counter equal to a non-zero padding
debt — the loop has already consumed the padding at every depth
(frames below index `i` must already satisfy this at entry, which holds
for every call the parser itself makes, the full-stack call `i = 0`
being vacuous). -/
theorem readCore_drain (fuel : Nat) :
    ∀ (st : PState) (a i : Nat) (st' : PState),
      readCore fuel st a i = .ok st' →
      (∀ (j : Nat) (hj : j < st.hier.length), j < i → goodFrame (st.hier[j])) →
      ∀ f ∈ st'.hier, goodFrame f := by
  induction fuel with
  | zero =>
    intro st a i st' hok
    simp [readCore] at hok
  | succ fuel ih =>
    intro st a i st' hok hpre
    rw [readCore_succ] at hok
    by_cases hi : i < st.hier.length
    · rw [dif_pos hi] at hok
      split at hok
      · rename_i htrig
        cases hnest : readCore fuel
            (advancePos { st with hier := st.hier.set i (decFrame (st.hier.get ⟨i, hi⟩) a) }
              (framePadding (st.hier.get ⟨i, hi⟩)))
            (framePadding (st.hier.get ⟨i, hi⟩)) 0 with
        | error e => rw [hnest] at hok; simp at hok
        | ok st3 =>
          rw [hnest] at hok
          have hall : ∀ f ∈ st3.hier, goodFrame f := by
            refine ih _ _ _ _ hnest ?_
            intro j hj hj0
            omega
          refine ih _ _ _ _ hok ?_
          intro j hj hlt
          exact hall _ (List.getElem_mem hj)
      · rename_i htrig
        refine ih _ _ _ _ hok ?_
        intro j hj hlt
        have hj0 : j < st.hier.length := by simpa using hj
        have hjs : j < (st.hier.set i (decFrame (st.hier.get ⟨i, hi⟩) a)).length := by
          simpa using hj
        have hset := getElem_set_decFrame st.hier i j a hi hj0 hjs
        show goodFrame ((st.hier.set i (decFrame (st.hier.get ⟨i, hi⟩) a))[j])
        rw [hset]
        by_cases hij : i = j
        · subst hij
          rw [if_pos rfl]
          intro hpb
          rw [framePadding_decFrame] at hpb ⊢
          intro hcontra
          exact htrig ⟨by simpa [List.get_eq_getElem] using hcontra,
            by simpa [List.get_eq_getElem] using hpb⟩
        · rw [if_neg hij]
          exact hpre j hj0 (by omega)
    · rw [dif_neg hi] at hok
      injection hok with hok
      subst hok
      intro f hf
      obtain ⟨j, hj, rfl⟩ := List.mem_iff_getElem.mp hf
      exact hpre j hj (by omega)

/-- When no frame's counter lands on a non-zero padding debt, the loop
performs no nested read at all: every frame from index `i` on is
decremented by exactly `amount`, the rest and the cursor are untouched. -/
theorem readCore_noTrigger (fuel : Nat) :
    ∀ (st : PState) (a i : Nat) (st' : PState),
      readCore fuel st a i = .ok st' →
      (∀ (j : Nat) (hj : j < st.hier.length), i ≤ j →
        ¬((st.hier[j]).remaining - (a : Int) = (framePadding (st.hier[j]) : Int) ∧
          framePadding (st.hier[j]) ≠ 0)) →
      st'.stream = st.stream ∧ st'.tree = st.tree ∧ st'.pos = st.pos ∧
      st'.hier.length = st.hier.length ∧
      ∀ (j : Nat) (hj : j < st.hier.length) (hj' : j < st'.hier.length),
        st'.hier[j] = if i ≤ j then decFrame (st.hier[j]) a else st.hier[j] := by
  induction fuel with
  | zero =>
    intro st a i st' hok
    simp [readCore] at hok
  | succ fuel ih =>
    intro st a i st' hok hpre
    rw [readCore_succ] at hok
    by_cases hi : i < st.hier.length
    · rw [dif_pos hi] at hok
      split at hok
      · rename_i htrig
        exfalso
        refine hpre i hi (le_refl i) ?_
        refine ⟨?_, ?_⟩
        · have h1 := htrig.1
          simpa [decFrame, List.get_eq_getElem] using h1
        · simpa [List.get_eq_getElem] using htrig.2
      · rename_i htrig
        obtain ⟨hs, ht, hp, hl, hf⟩ := ih _ _ _ _ hok (by
          intro j hj hle
          have hj0 : j < st.hier.length := by simpa using hj
          have hjs : j < (st.hier.set i (decFrame (st.hier.get ⟨i, hi⟩) a)).length := by
            simpa using hj
          have hset := getElem_set_decFrame st.hier i j a hi hj0 hjs
          have hne : ¬ i = j := by omega
          rw [if_neg hne] at hset
          show ¬(((st.hier.set i (decFrame (st.hier.get ⟨i, hi⟩) a))[j]).remaining - (a : Int)
              = (framePadding ((st.hier.set i (decFrame (st.hier.get ⟨i, hi⟩) a))[j]) : Int) ∧
              framePadding ((st.hier.set i (decFrame (st.hier.get ⟨i, hi⟩) a))[j]) ≠ 0)
          rw [hset]
          exact hpre j hj0 (by omega))
        simp only [List.length_set] at hl hf
        refine ⟨by simpa using hs, by simpa using ht, by simpa using hp, by simpa using hl, ?_⟩
        intro j hj hj'
        have h := hf j hj hj'
        have hset := getElem_set_decFrame st.hier i j a hi hj (by simpa using hj)
        rw [hset] at h
        rw [h]
        by_cases hij : i = j
        · subst hij
          rw [if_neg (by omega : ¬ i + 1 ≤ i), if_pos rfl, if_pos (le_refl i)]
        · by_cases hle : i ≤ j
          · rw [if_pos (by omega : i + 1 ≤ j), if_neg hij, if_pos hle]
          · rw [if_neg (by omega : ¬ i + 1 ≤ j), if_neg hij, if_neg hle]
    · rw [dif_neg hi] at hok
      injection hok with hok
      subst hok
      refine ⟨rfl, rfl, rfl, rfl, ?_⟩
      intro j hj hj'
      rw [if_neg (by omega)]

/-! ## Claim theorems -/

/-- C1: after every read of `n` bytes, the byte cursor decrements the
remaining-byte counter of every currently-open container frame — the
whole stack, uniformly — by `n` plus the total `D` of padding bytes it
additionally consumed (the cursor advancing by exactly `n + D`, capped
at the end of the source); when no counter lands on a non-zero padding
debt, `D = 0` and each counter drops by exactly `n`; and on return no
frame at any nesting depth is left with its counter equal to a non-zero
padding debt, i.e. every triggered padding amount has been read before
control returns to the caller. -/
theorem read_accounting_full_stack (fuel a : Nat) (st : PState) (d : List Nat)
    (st' : PState) (hpos : st.pos ≤ st.stream.length)
    (h : readBytesF fuel st a = .ok (d, st')) :
    (∃ D : Nat,
      st'.pos = min (st.pos + a + D) st.stream.length ∧
      st'.hier.length = st.hier.length ∧
      ∀ (j : Nat) (hj : j < st.hier.length) (hj' : j < st'.hier.length),
        st'.hier[j] = decFrame (st.hier[j]) (a + D)) ∧
    ((∀ (j : Nat) (hj : j < st.hier.length),
        ¬((st.hier[j]).remaining - (a : Int) = (framePadding (st.hier[j]) : Int) ∧
          framePadding (st.hier[j]) ≠ 0)) →
      st'.pos = min (st.pos + a) st.stream.length ∧
      ∀ (j : Nat) (hj : j < st.hier.length) (hj' : j < st'.hier.length),
        st'.hier[j] = decFrame (st.hier[j]) a) ∧
    (∀ f ∈ st'.hier, framePadding f ≠ 0 → f.remaining ≠ (framePadding f : Int)) := by
  simp only [readBytesF] at h
  cases hc : readCore fuel (advancePos st a) a 0 with
  | error e => rw [hc] at h; simp at h
  | ok st'' =>
    rw [hc] at h
    simp only [Except.ok.injEq, Prod.mk.injEq] at h
    obtain ⟨hd, hst⟩ := h
    subst hst
    refine ⟨?_, ?_, ?_⟩
    · obtain ⟨D, hs, ht, hp, hl, hf⟩ := readCore_ok fuel _ a 0 _ hc (by
        simp only [advancePos_pos, advancePos_stream]; omega)
      simp only [advancePos_pos, advancePos_stream, advancePos_hier] at hs hp hl hf
      refine ⟨D, ?_, hl, ?_⟩
      · rw [hp]; omega
      · intro j hj hj'
        have := hf j hj hj'
        rw [this, if_pos (Nat.zero_le j)]
        exact decFrame_congr _ (by omega)
    · intro hno
      obtain ⟨hs, ht, hp, hl, hf⟩ := readCore_noTrigger fuel _ a 0 _ hc (by
        intro j hj hle
        simp only [advancePos_hier] at hj ⊢
        exact hno j hj)
      simp only [advancePos_pos, advancePos_stream, advancePos_hier] at hs hp hl hf
      refine ⟨?_, ?_⟩
      · rw [hp]; omega
      · intro j hj hj'
        have := hf j hj hj'
        rw [this, if_pos (Nat.zero_le j)]
    · intro f hf
      exact readCore_drain fuel _ a 0 _ hc (by intro j hj hj0; omega) f hf

def c1stIn : PState :=
  { stream := [9, 9, 9, 9], pos := 0,
    hier := [⟨"GPSU", "c", 2, 3, 6, 4⟩], tree := [] }

def c1stOut : PState :=
  { stream := [9, 9, 9, 9], pos := 4,
    hier := [⟨"GPSU", "c", 2, 3, 6, 0⟩], tree := [] }

/-- Witness for C1: a frame with total payload 6 (padding debt 2) and 4
bytes remaining; reading 2 bytes drops the counter to the padding debt,
so the cursor recursively reads the 2 padding bytes: the cursor advances
by 4 and the counter by 4, and no frame is left on its padding debt. -/
theorem read_accounting_full_stack_witness :
    (∃ D : Nat,
      c1stOut.pos = min (c1stIn.pos + 2 + D) c1stIn.stream.length ∧
      c1stOut.hier.length = c1stIn.hier.length ∧
      ∀ (j : Nat) (hj : j < c1stIn.hier.length) (hj' : j < c1stOut.hier.length),
        c1stOut.hier[j] = decFrame (c1stIn.hier[j]) (2 + D)) ∧
    ((∀ (j : Nat) (hj : j < c1stIn.hier.length),
        ¬((c1stIn.hier[j]).remaining - (2 : Int) = (framePadding (c1stIn.hier[j]) : Int) ∧
          framePadding (c1stIn.hier[j]) ≠ 0)) →
      c1stOut.pos = min (c1stIn.pos + 2) c1stIn.stream.length ∧
      ∀ (j : Nat) (hj : j < c1stIn.hier.length) (hj' : j < c1stOut.hier.length),
        c1stOut.hier[j] = decFrame (c1stIn.hier[j]) 2) ∧
    (∀ f ∈ c1stOut.hier, framePadding f ≠ 0 → f.remaining ≠ (framePadding f : Int)) :=
  read_accounting_full_stack 6 2 c1stIn [9, 9] c1stOut (by decide) rfl

/-- C10: the byte-returning side and the accounting side of `read_bytes`
are independent: the data handed back has length `min n (bytes left)`,
which can be anything down to 0, while every open frame's counter is
always decremented by the full requested `n` (plus padding reads) — no
comparison of requested against returned ever happens, so at end of
stream the accounting and the data diverge. -/
theorem read_accounting_ignores_returned_length (fuel a : Nat) (st : PState)
    (d : List Nat) (st' : PState) (hpos : st.pos ≤ st.stream.length)
    (h : readBytesF fuel st a = .ok (d, st')) :
    d.length = min a (st.stream.length - st.pos) ∧
    ∃ D : Nat, ∀ (j : Nat) (hj : j < st.hier.length) (hj' : j < st'.hier.length),
      (st'.hier[j]).remaining = (st.hier[j]).remaining - ((a : Int) + D) := by
  simp only [readBytesF] at h
  cases hc : readCore fuel (advancePos st a) a 0 with
  | error e => rw [hc] at h; simp at h
  | ok st'' =>
    rw [hc] at h
    simp only [Except.ok.injEq, Prod.mk.injEq] at h
    obtain ⟨hd, hst⟩ := h
    subst hst
    constructor
    · rw [← hd]
      simp [List.length_take, List.length_drop]
    · obtain ⟨D, hs, ht, hp, hl, hf⟩ := readCore_ok fuel _ a 0 _ hc (by
        simp only [advancePos_pos, advancePos_stream]; omega)
      simp only [advancePos_hier] at hf
      refine ⟨D, ?_⟩
      intro j hj hj'
      have := hf j hj hj'
      rw [this, if_pos (Nat.zero_le j)]
      simp only [decFrame]
      push_cast
      ring

def c10stIn : PState :=
  { stream := [], pos := 0,
    hier := [⟨"GPSU", "c", 2, 3, 6, 12⟩], tree := [] }

def c10stOut : PState :=
  { stream := [], pos := 0,
    hier := [⟨"GPSU", "c", 2, 3, 6, 7⟩], tree := [] }

/-- Witness for C10: reading 5 bytes from an exhausted source returns no
data at all, yet the open frame's counter still drops by the full 5. -/
theorem read_accounting_ignores_returned_length_witness :
    ([] : List Nat).length = min 5 (c10stIn.stream.length - c10stIn.pos) ∧
    ∃ D : Nat, ∀ (j : Nat) (hj : j < c10stIn.hier.length) (hj' : j < c10stOut.hier.length),
      (c10stOut.hier[j]).remaining = (c10stIn.hier[j]).remaining - ((5 : Int) + D) :=
  read_accounting_ignores_returned_length 6 5 c10stIn [] c10stOut (by decide) rfl

/-- C4: the closing step at the end of `handle_types` removes exactly the
frames whose remaining count is zero — every surviving frame is non-zero,
every non-zero frame survives, the surviving stack is a subsequence of
the full one (so simultaneous zeros at several depths, parent and child,
are removed together before the driver reads the next header), and
nothing else of the state changes. -/
theorem frames_closed_exactly_at_zero (fuel : Nat) (st s s' : PState)
    (hpre : handleTypesPre fuel st = .ok s)
    (h : handleTypesF fuel st = .ok s') :
    (∀ f ∈ s'.hier, f.remaining ≠ 0) ∧
    s'.hier.Sublist s.hier ∧
    (∀ f ∈ s.hier, f.remaining ≠ 0 → f ∈ s'.hier) ∧
    s'.tree = s.tree ∧ s'.pos = s.pos ∧ s'.stream = s.stream := by
  rw [handleTypesF, hpre] at h
  simp only [Except.ok.injEq] at h
  subst h
  refine ⟨?_, ?_, ?_, rfl, rfl, rfl⟩
  · intro f hf
    have := List.mem_filter.mp hf
    simpa using this.2
  · exact List.filter_sublist _
  · intro f hf hne
    exact List.mem_filter.mpr ⟨hf, by simpa using hne⟩

def c4st : PState :=
  { stream := [84], pos := 0,
    hier := [⟨"DEVC", "0", 1, 12, 12, 1⟩, ⟨"GPSU", "c", 1, 4, 4, 1⟩],
    tree := [JNode.entry "DEVC" "0" 1 12 [JNode.entry "GPSU" "c" 1 4
      [JNode.val (PyVal.str "T"), JNode.val (PyVal.str "E"), JNode.val (PyVal.str "S")]]] }

def c4tree : List JNode :=
  [JNode.entry "DEVC" "0" 1 12 [JNode.entry "GPSU" "c" 1 4
    [JNode.val (PyVal.str "T"), JNode.val (PyVal.str "E"),
     JNode.val (PyVal.str "S"), JNode.val (PyVal.str "T")]]]

def c4mid : PState :=
  { stream := [84], pos := 1,
    hier := [⟨"DEVC", "0", 1, 12, 12, 0⟩, ⟨"GPSU", "c", 1, 4, 4, 0⟩],
    tree := c4tree }

def c4out : PState :=
  { stream := [84], pos := 1, hier := [], tree := c4tree }

/-- Witness for C4: decoding the last element of `GPSU` zeroes both the
leaf and its enclosing `DEVC` at once; the closing step removes both
together. -/
theorem frames_closed_exactly_at_zero_witness :
    (∀ f ∈ c4out.hier, f.remaining ≠ 0) ∧
    c4out.hier.Sublist c4mid.hier ∧
    (∀ f ∈ c4mid.hier, f.remaining ≠ 0 → f ∈ c4out.hier) ∧
    c4out.tree = c4mid.tree ∧ c4out.pos = c4mid.pos ∧ c4out.stream = c4mid.stream :=
  frames_closed_exactly_at_zero 9 c4st c4mid c4out rfl rfl

def c5s : List Nat :=
  [71, 80, 83, 53, 76, 4, 0, 3,
   0, 0, 0, 1, 0, 0, 0, 2, 0, 0, 0, 3,
   0, 0, 0, 0, 0, 0, 0, 0]

def c5final : PState :=
  { stream := c5s, pos := 28, hier := [],
    tree := [JNode.entry "GPS5" "L" 4 3
      [JNode.val (PyVal.int 1), JNode.val (PyVal.int 2), JNode.val (PyVal.int 3)]] }

/-- C5: decoding one leaf record `GPS5` of type `L`, element size 4,
repeat 3, with payload bytes `00000001 00000002 00000003` followed by the
sentinel yields the value sequence `[1, 2, 3]` under that key, with the
cursor having consumed the 8 header bytes, all 12 = size×repeat payload
bytes and the 8 sentinel bytes. -/
theorem leaf_L_4_3_decodes_values :
    mainLoopF 20 (initState c5s) = .ok c5final := rfl

def c8s : List Nat :=
  [71, 80, 83, 85, 85, 16, 0, 1,
   49, 53, 48, 54, 50, 51, 49, 51, 53, 48, 52, 53, 46, 49, 50, 51,
   0, 0, 0, 0, 0, 0, 0, 0]

def c8final : PState :=
  { stream := c8s, pos := 32, hier := [],
    tree := [JNode.entry "GPSU" "U" 16 1
      [JNode.val (PyVal.str "23.06.2015 13:50:45.123")]] }

/-- C8: a type-`U` leaf whose 16 payload bytes are the ASCII digits of
`150623135045.123` decodes to the reformatted date-time string
`23.06.2015 13:50:45.123`. -/
theorem type_U_datetime_format_run :
    mainLoopF 20 (initState c8s) = .ok c8final := rfl

def c6s : List Nat :=
  [68, 69, 86, 67, 0, 1, 0, 12,
   71, 80, 83, 85, 99, 1, 0, 4,
   84, 69, 83, 84,
   0, 0, 0, 0, 0, 0, 0, 0]

def c6final : PState :=
  { stream := c6s, pos := 28, hier := [],
    tree := [JNode.entry "DEVC" "0" 1 12 [JNode.entry "GPSU" "c" 1 4
      [JNode.val (PyVal.str "T"), JNode.val (PyVal.str "E"),
       JNode.val (PyVal.str "S"), JNode.val (PyVal.str "T")]]] }

/-- Counterexample to C6 as stated: in the decoded tree the `GPSU` leaf
(type `c`, size 1, repeat 4, payload `TEST`) holds four one-character
strings, one per decoded element, not the single string `"TEST"` the
claim asserts. -/
theorem gpsu_values_are_single_chars :
    mainLoopF 20 (initState c6s) = .ok c6final ∧
    c6final.tree ≠ [JNode.entry "DEVC" "0" 1 12 [JNode.entry "GPSU" "c" 1 4
      [JNode.val (PyVal.str "TEST")]]] := by
  refine ⟨rfl, ?_⟩
  intro h
  simp [c6final] at h

/-- C6 amended: the `GPSU` leaf appears as the single child of `DEVC`
with value sequence `["T", "E", "S", "T"]` (one single-character string
per element of the `c`-type payload), and `DEVC`'s remaining budget is
reduced by exactly the 12 bytes consumed for `GPSU` (8 header + 4
payload + 0 padding), reaching zero so that both frames are closed:
the final stack is empty and the cursor sits past the sentinel. -/
theorem devc_gpsu_nesting_run :
    mainLoopF 20 (initState c6s) = .ok c6final := rfl

def c2hs : List Nat := [65, 67, 67, 76, 76, 4, 0, 1, 0, 0, 0, 7]

def c2hFinal : PState :=
  { stream := c2hs, pos := 12, hier := [],
    tree := [JNode.entry "ACCL" "L" 4 1 [JNode.val (PyVal.int 7)]] }

/-- Counterexample to C2 as stated: a truncated input (a complete leaf
record with no sentinel and no further bytes) does not fail at all —
the empty reads at end of stream parse as a size-0/repeat-0 header, the
driver breaks, and a seemingly complete tree is returned; no
`UnexpectedEndOfStream`-style error exists anywhere in the code. -/
theorem truncated_input_completes_without_error :
    mainLoopF 20 (initState c2hs) = .ok c2hFinal ∧
    ∀ e : PErr, mainLoopF 20 (initState c2hs) ≠ .error e := by
  refine ⟨rfl, ?_⟩
  intro e he
  rw [show mainLoopF 20 (initState c2hs) = .ok c2hFinal from rfl] at he
  exact Except.noConfusion he

def c2ps : List Nat := [65, 67, 67, 76, 76, 4, 0, 2, 0, 0, 0, 7]

/-- C2 amended: `read(n)` returns `min n (bytes left)` bytes and never
itself fails — no comparison of requested against obtained is made — so
a declared payload longer than the source is not detected as an
end-of-stream error: truncation at a header boundary completes as if
the stream were whole, and truncation inside a leaf surfaces only as a
later `IndexError` (empty element, as in the concrete run below) or
`ValueError` (length not a multiple of the element width), never as a
dedicated `UnexpectedEndOfStream`. -/
theorem read_never_fails_short :
    (∀ (fuel a : Nat) (st : PState) (d : List Nat) (st' : PState),
      readBytesF fuel st a = .ok (d, st') →
      d.length = min a (st.stream.length - st.pos)) ∧
    mainLoopF 20 (initState c2ps) = .error .indexError := by
  constructor
  · intro fuel a st d st' h
    simp only [readBytesF] at h
    cases hc : readCore fuel (advancePos st a) a 0 with
    | error e => rw [hc] at h; simp at h
    | ok st'' =>
      rw [hc] at h
      simp only [Except.ok.injEq, Prod.mk.injEq] at h
      rw [← h.1]
      simp
  · rfl

def c2wOut : PState :=
  { stream := [1, 2, 3], pos := 3, hier := [], tree := [] }

/-- Witness for the amended C2: requesting 5 bytes from a 3-byte source
returns the 3 available bytes without error. -/
theorem read_never_fails_short_witness :
    ([1, 2, 3] : List Nat).length
      = min 5 ((initState [1, 2, 3]).stream.length - (initState [1, 2, 3]).pos) :=
  read_never_fails_short.1 3 5 (initState [1, 2, 3]) [1, 2, 3] c2wOut rfl

def c3s : List Nat :=
  [68, 69, 86, 67, 0, 1, 0, 100,
   0, 0, 0, 0, 0, 0, 0, 0]

def c3final : PState :=
  { stream := c3s, pos := 16,
    hier := [⟨"DEVC", "0", 1, 100, 100, 92⟩],
    tree := [JNode.entry "DEVC" "0" 1 100 []] }

/-- Counterexample to C3 as stated: a size-0/repeat-0 sentinel read while
the `DEVC` container is still open (92 of its declared bytes outstanding)
terminates the decode normally — the driver checks the sentinel on every
header read, including inside an open container, and `break`s instead of
failing. -/
theorem sentinel_inside_container_terminates_done :
    mainLoopF 20 (initState c3s) = .ok c3final ∧
    c3final.hier ≠ [] ∧
    ∀ e : PErr, mainLoopF 20 (initState c3s) ≠ .error e := by
  refine ⟨rfl, by decide, ?_⟩
  intro e he
  rw [show mainLoopF 20 (initState c3s) = .ok c3final from rfl] at he
  exact Except.noConfusion he

/-- C3 amended: whenever the driver is at a header-read point (empty
stack, or the top of the stack a container) and the header parses with
size 0 and repeat 0, the loop terminates in the done state — with no
condition whatsoever on the container stack, so the sentinel also
silently ends the decode mid-container. -/
theorem sentinel_breaks_regardless_of_open_containers
    (fuel : Nat) (st st1 st2 st3 st4 : PState) (kb tb sb rb : List Nat)
    (key0 tc : String)
    (hhdr : st.hier = [] ∨ ∃ f, st.hier.getLast? = some f ∧ f.ty = "0")
    (h1 : readBytesF fuel st 4 = .ok (kb, st1))
    (hk : decodeAscii kb = .ok key0)
    (h2 : readBytesF fuel st1 1 = .ok (tb, st2))
    (ht : parseTypeCode tb = .ok tc)
    (h3 : readBytesF fuel st2 1 = .ok (sb, st3))
    (hsz : bytesToNat sb = 0)
    (h4 : readBytesF fuel st3 2 = .ok (rb, st4))
    (hrp : bytesToNat rb = 0) :
    mainLoopF (fuel + 1) st = .ok st4 := by
  have hcond : (match st.hier.getLast? with
      | none => true
      | some f => f.ty == "0") = true := by
    rcases hhdr with h | ⟨f, hf, hty⟩
    · rw [h]; rfl
    · rw [hf]; simp [hty]
  have hstep : stepF fuel st = .ok (.brk st4) := by
    simp only [stepF, hcond, if_true, h1, hk, h2, ht, h3, h4, hsz, hrp]
    simp
  simp [mainLoopF, hstep]

def c3wTree : List JNode := [JNode.entry "DEVC" "0" 1 100 []]

def c3wSt : PState :=
  { stream := c3s, pos := 8, hier := [⟨"DEVC", "0", 1, 100, 100, 100⟩], tree := c3wTree }

def c3w1 : PState :=
  { stream := c3s, pos := 12, hier := [⟨"DEVC", "0", 1, 100, 100, 96⟩], tree := c3wTree }

def c3w2 : PState :=
  { stream := c3s, pos := 13, hier := [⟨"DEVC", "0", 1, 100, 100, 95⟩], tree := c3wTree }

def c3w3 : PState :=
  { stream := c3s, pos := 14, hier := [⟨"DEVC", "0", 1, 100, 100, 94⟩], tree := c3wTree }

def c3w4 : PState :=
  { stream := c3s, pos := 16, hier := [⟨"DEVC", "0", 1, 100, 100, 92⟩], tree := c3wTree }

/-- Witness for the amended C3: with `DEVC` open, the all-zero header is
read and the loop ends in the done state. -/
theorem sentinel_breaks_regardless_of_open_containers_witness :
    mainLoopF 11 c3wSt = .ok c3w4 :=
  sentinel_breaks_regardless_of_open_containers 10 c3wSt c3w1 c3w2 c3w3 c3w4
    [0, 0, 0, 0] [0] [0] [0, 0] "\x00\x00\x00\x00" "0"
    (Or.inr ⟨⟨"DEVC", "0", 1, 100, 100, 100⟩, rfl, rfl⟩)
    rfl rfl rfl rfl rfl rfl rfl rfl

/-- C7: a leaf whose type tag lies outside the recognized set
`{b, B, s, S, l, L, j, J, f, d, c, U}` (and is not the container marker,
so the driver actually dispatches it as a leaf) makes `handle_types`
raise the unsupported-type error as soon as its payload bytes have been
read, and the driver loop aborts with that same error — no value is
recorded and no further record is parsed. -/
theorem unsupported_type_aborts (fuel : Nat) (st st1 : PState) (top : Frame)
    (d : List Nat)
    (htop : st.hier.getLast? = some top)
    (hne : top.ty ≠ "0")
    (hnotin : top.ty ∉ (["b", "B", "c", "d", "f", "j", "J", "l", "L", "s", "S", "U"] : List String))
    (hread : readBytesF fuel st top.size = .ok (d, st1)) :
    stepF fuel st = .error (.unsupportedType top.ty) ∧
    mainLoopF (fuel + 1) st = .error (.unsupportedType top.ty) := by
  simp only [List.mem_cons, List.not_mem_nil, or_false, not_or] at hnotin
  obtain ⟨hb, hB, hc, hd', hf', hj', hJ, hl', hL, hs', hS, hU⟩ := hnotin
  have hdec : typeDecode top.ty d = .error (.unsupportedType top.ty) := by
    simp [typeDecode, hb, hB, hc, hd', hf', hj', hJ, hl', hL, hs', hS, hU]
  have hcond : (top.ty == "0") = false := by
    simp [hne]
  have hstep : stepF fuel st = .error (.unsupportedType top.ty) := by
    simp only [stepF, htop, hcond, Bool.false_eq_true, if_false, handleTypesF,
      handleTypesPre, hread, hdec]
  exact ⟨hstep, by simp [mainLoopF, hstep]⟩

def c7st : PState :=
  { stream := [1, 2, 3, 4], pos := 0,
    hier := [⟨"GYRO", "q", 4, 1, 4, 4⟩],
    tree := [JNode.entry "GYRO" "q" 4 1 []] }

def c7mid : PState :=
  { stream := [1, 2, 3, 4], pos := 4,
    hier := [⟨"GYRO", "q", 4, 1, 4, 0⟩],
    tree := [JNode.entry "GYRO" "q" 4 1 []] }

/-- Witness for C7: a leaf with type tag `q` aborts the decode with the
unsupported-type error. -/
theorem unsupported_type_aborts_witness :
    stepF 2 c7st = .error (.unsupportedType "q") ∧
    mainLoopF 3 c7st = .error (.unsupportedType "q") :=
  unsupported_type_aborts 2 c7st c7mid ⟨"GYRO", "q", 4, 1, 4, 4⟩ [1, 2, 3, 4]
    rfl (by decide) (by decide) rfl

/-- C9: with a non-empty scale sequence present, the exported samples
keep their shape (one output group per sample group, of the same
length), and the `i`-th raw value of every group is divided by the scale
at index `i mod len(scales)` — cyclic element-wise division — before
rounding to 6 decimal places. -/
theorem scale_values_cyclic_division (values : List (List ℚ)) (scales : List ℚ)
    (hs : scales ≠ []) :
    (scale_values values scales).length = values.length ∧
    ∀ (g : Nat) (hg : g < values.length) (hg' : g < (scale_values values scales).length),
      ((scale_values values scales)[g]).length = (values[g]).length ∧
      ∀ (i : Nat) (hi : i < (values[g]).length)
        (hi' : i < ((scale_values values scales)[g]).length),
        ((scale_values values scales)[g])[i]
          = pyRound6 ((values[g])[i] / scales.getD (i % scales.length) 0) := by
  refine ⟨by simp [scale_values], ?_⟩
  intro g hg hg'
  constructor
  · simp [scale_values, pyEnumerate]
  · intro i hi hi'
    simp [scale_values, pyEnumerate, List.getElem_zip, List.getElem_range]

/-- Witness for C9: scales `[2, 5]` applied to the sample groups
`[[10, 25], [30]]`. -/
theorem scale_values_cyclic_division_witness :
    (scale_values [[(10 : ℚ), 25], [30]] [2, 5]).length = ([[(10 : ℚ), 25], [30]] : List (List ℚ)).length ∧
    ∀ (g : Nat) (hg : g < ([[(10 : ℚ), 25], [30]] : List (List ℚ)).length)
      (hg' : g < (scale_values [[(10 : ℚ), 25], [30]] [2, 5]).length),
      ((scale_values [[(10 : ℚ), 25], [30]] [2, 5])[g]).length
        = (([[(10 : ℚ), 25], [30]] : List (List ℚ))[g]).length ∧
      ∀ (i : Nat) (hi : i < (([[(10 : ℚ), 25], [30]] : List (List ℚ))[g]).length)
        (hi' : i < ((scale_values [[(10 : ℚ), 25], [30]] [2, 5])[g]).length),
        ((scale_values [[(10 : ℚ), 25], [30]] [2, 5])[g])[i]
          = pyRound6 ((([[(10 : ℚ), 25], [30]] : List (List ℚ))[g])[i]
              / ([(2 : ℚ), 5] : List ℚ).getD (i % ([(2 : ℚ), 5] : List ℚ).length) 0) :=
  scale_values_cyclic_division [[(10 : ℚ), 25], [30]] [2, 5] (by simp)
